import Mathlib

/- Shallow embedding of src/app.py, an HTML block extractor.

   Python strings are modelled as lists of characters (Str), and the parse
   tree handed out by the external HTML library is modelled by the Node type:
   an element with a tag name, an ordered attribute list and ordered children,
   or a text node.  Serialization (str(tag)), text extraction
   (get_text(strip=True)) and document-order traversal (next_elements,
   find_all) are defined on Node following the interface contract stated in
   the specification; everything else is translated directly from src/app.py.

   External effects are parameters: the network fetch performed by
   fetch_iframe_title is passed to the extraction functions as an abstract
   function (fetch : Str -> Str -> Str), and the lenient re-parse performed
   by clean_orphaned_tags is an abstract (parse : Str -> Option Node), which
   returns none when re-parsing raises. -/

abbrev Str := List Char

def isSpaceChar (c : Char) : Bool :=
  c = ' ' || c = '\t' || c = '\n' || c = '\r' || c = '\x0b' || c = '\x0c'

/-- Python str.strip(): remove leading and trailing whitespace. -/
def pyStrip (s : Str) : Str :=
  ((s.dropWhile isSpaceChar).reverse.dropWhile isSpaceChar).reverse

/-- Whitespace normalization used to compare markup whitespace-insensitively. -/
def squashWs (s : Str) : Str := s.filter (fun c => !(isSpaceChar c))

inductive Node where
  | elem (name : Str) (attrs : List (Str × Str)) (children : List Node)
  | text (s : Str)

mutual
/-- str(tag) of the parse-tree library: opening tag with its attributes,
serialized children, closing tag; a text node prints its text. -/
def serialize : Node → Str
  | .text s => s
  | .elem n a cs =>
      ('<' :: n) ++ (a.map (fun p => (' ' :: p.1) ++ ('=' :: '"' :: p.2) ++ ['"'])).flatten
        ++ ('>' :: serializeList cs) ++ ('<' :: '/' :: n) ++ ['>']
def serializeList : List Node → Str
  | [] => []
  | c :: cs => serialize c ++ serializeList cs
end

mutual
/-- get_text(strip=True): concatenation of all descendant text, each text
node stripped of surrounding whitespace. -/
def getTextStrip : Node → Str
  | .text s => pyStrip s
  | .elem _ _ cs => getTextStripList cs
def getTextStripList : List Node → Str
  | [] => []
  | c :: cs => getTextStrip c ++ getTextStripList cs
end

/-- A position in a tree: the list of child indices from the root. -/
abbrev TreePath := List Nat

mutual
/-- Document-order (preorder) traversal of a subtree, pairing every node
with its path relative to the given root path. -/
def preorderFrom (p : TreePath) : Node → List (TreePath × Node)
  | .text s => [(p, .text s)]
  | .elem n a cs => (p, .elem n a cs) :: preorderList p 0 cs
def preorderList (p : TreePath) (i : Nat) : List Node → List (TreePath × Node)
  | [] => []
  | c :: cs => preorderFrom (p ++ [i]) c ++ preorderList p (i + 1) cs
end

def isTag : Node → Bool
  | .elem _ _ _ => true
  | .text _ => false

def nameOf : Node → Str
  | .elem n _ _ => n
  | .text _ => []

def childrenOf : Node → List Node
  | .elem _ _ cs => cs
  | .text _ => []

/-- The element children of a node, in order (text children are skipped);
this is the tag_children list computed by extract_blocks_recursive. -/
def tagChildren (n : Node) : List Node := (childrenOf n).filter isTag

/-- tag.get(key, ""): attribute lookup with empty-string default. -/
def getAttr (n : Node) (k : Str) : Str :=
  match n with
  | .text _ => []
  | .elem _ a _ => (List.lookup k a).getD []

def ALLOWED_TAGS : List Str :=
  [("p".toList), ("blockquote".toList), ("ul".toList), ("ol".toList), ("li".toList),
   ("h1".toList), ("h2".toList), ("h3".toList), ("h4".toList), ("h5".toList), ("h6".toList)]

def IFRAME_TITLE_TAGS : List Str :=
  [("h1".toList), ("h2".toList), ("h3".toList), ("h4".toList), ("h5".toList), ("h6".toList)]

def IFRAME_TAG : Str := ("iframe".toList)

def SCRIPT_TAG : Str := ("script".toList)

def SPECIAL_SEQUENCE : Str × Str := (IFRAME_TAG, SCRIPT_TAG)

def SRC_ATTR : Str := ("src".toList)

/- ===== tokens used by the splitter ===== -/

def tokSeqHead : Str := ("@@IFRAME_SEQ_".toList)

def tokIframeHead : Str := ("@@IFRAME_ONLY_".toList)

def tokScriptHead : Str := ("@@SCRIPT_ONLY_".toList)

def tokTail : Str := ("@@".toList)

/-- The literal three characters dot star question-mark that the fallback
branch of _process_allowed_element concatenates between the two tokens. -/
def dotStarQ : Str := (".*?".toList)

def seqToken (idx : Nat) : Str := tokSeqHead ++ Nat.toDigits 10 idx ++ tokTail

/-- re.subn(re.escape(pat), rep, s, count=1): replace the first occurrence of
the literal pattern, returning the new string and the replacement count. -/
def replaceFirst (pat rep : Str) : Str → Str × Nat
  | [] => if pat = [] then (rep, 1) else ([], 0)
  | c :: rest =>
    if pat.isPrefixOf (c :: rest) then (rep ++ (c :: rest).drop pat.length, 1)
    else
      let r := replaceFirst pat rep rest
      (c :: r.1, r.2)

/-- Python str.replace(old, new): replace every occurrence of the literal
pattern, scanning left to right without overlap.  The skip counter carries
how many characters of an already-replaced occurrence remain to be consumed,
so the recursion advances one character at a time. -/
def replaceAllGo (pat rep : Str) : Nat → Str → Str
  | _, [] => []
  | k + 1, _ :: rest => replaceAllGo pat rep k rest
  | 0, c :: rest =>
    if pat ≠ [] ∧ pat.isPrefixOf (c :: rest) then
      rep ++ replaceAllGo pat rep (pat.length - 1) rest
    else c :: replaceAllGo pat rep 0 rest

def replaceAll (pat rep : Str) (s : Str) : Str := replaceAllGo pat rep 0 s

/-- Match of the token regex at the start of a string: the literal token head,
one or more decimal digits, then two at-signs; returns the matched token and
the remainder. -/
def matchToken (s : Str) : Option (Str × Str) :=
  if tokSeqHead.isPrefixOf s then
    let r := s.drop tokSeqHead.length
    let ds := r.takeWhile Char.isDigit
    if ds = [] then none
    else if tokTail.isPrefixOf (r.drop ds.length) then
      some (tokSeqHead ++ ds ++ tokTail, (r.drop ds.length).drop tokTail.length)
    else none
  else none

/-- re.split on the token regex, keeping the captured tokens as delimiters;
segments between tokens (possibly empty) alternate with the tokens.  The
skip counter carries how many characters of a just-matched token remain to
be consumed, so the recursion advances one character at a time. -/
def splitAux (skip : Nat) (acc : Str) : Str → List Str
  | [] => [acc]
  | c :: rest =>
    match skip with
    | k + 1 => splitAux k acc rest
    | 0 =>
      match matchToken (c :: rest) with
      | some ta => acc :: ta.1 :: splitAux (ta.1.length - 1) [] rest
      | none => splitAux 0 (acc ++ [c]) rest

def splitTokens (s : Str) : List Str := splitAux 0 [] s

/- ===== clean_orphaned_tags ===== -/

/-- soup.find_all(): every element node of the parsed document, in document
order, the document root itself excluded. -/
def findAllTags (soup : Node) : List Node :=
  ((preorderFrom [] soup).filter (fun pr => !(pr.1.isEmpty) && isTag pr.2)).map (fun pr => pr.2)

/-- clean_orphaned_tags from src/app.py.  The lenient re-parse done by the
HTML library is the abstract parameter parse; parse returning none models
the parsing step raising, in which case the original fragment is returned
unchanged (the except branch). -/
def clean_orphaned_tags (parse : Str → Option Node) (html_fragment : Str) : Str :=
  if html_fragment = [] ∨ pyStrip html_fragment = [] then []
  else
    match parse html_fragment with
    | none => html_fragment
    | some soup =>
      let text_content := getTextStrip soup
      if text_content = [] then
        if (findAllTags soup).any (fun t => !((getTextStrip t).isEmpty)) then serialize soup
        else []
      else serialize soup

/- ===== _find_script_after ===== -/

/-- Strict document order on tree paths: an ancestor precedes its
descendants, and siblings are ordered by index. -/
def pathLt : TreePath → TreePath → Bool
  | [], [] => false
  | [], _ :: _ => true
  | _ :: _, [] => false
  | a :: p, b :: q => if a = b then pathLt p q else decide (a < b)

/-- tag.next_elements: all nodes of the document strictly after the node at
path p, in document order (this includes the node's own descendants). -/
def nextElements (root : Node) (p : TreePath) : List (TreePath × Node) :=
  (preorderFrom [] root).filter (fun pr => pathLt p pr.1)

/-- boundary in node.parents: the boundary path is a proper prefix of the
node's path. -/
def inBoundary (bp q : TreePath) : Bool := bp.isPrefixOf q && bp.length != q.length

/-- The scanning loop of _find_script_after: walk the following nodes in
document order; at the first script element, either return it (if it lies
within the boundary) or give up. -/
def scanScript (bp : TreePath) : List (TreePath × Node) → Option (TreePath × Node)
  | [] => none
  | (q, n) :: rest =>
    if isTag n = true ∧ nameOf n = SCRIPT_TAG then
      (if inBoundary bp q then some (q, n) else none)
    else scanScript bp rest

/-- _find_script_after from src/app.py: nodes are addressed by their path in
the tree rooted at root; tag is the path of the iframe, bp the path of the
boundary element. -/
def _find_script_after (root : Node) (tag bp : TreePath) : Option (TreePath × Node) :=
  scanScript bp (nextElements root tag)

/- ===== _process_allowed_element ===== -/

/-- el.find_all(special-embed-tag): the iframe descendants of el in document
order, with their paths relative to el. -/
def iframesIn (el : Node) : List (TreePath × Node) :=
  (preorderFrom [] el).filter
    (fun pr => !(pr.1.isEmpty) && isTag pr.2 && nameOf pr.2 == IFRAME_TAG)

/-- The pair-collection loop of _process_allowed_element: each iframe
descendant of el is paired with the first following script (scanning el's
own subtree, boundary el itself; a first-following script outside el would
lie after all of el's subtree in document order, so scanning within el is
equivalent to the document-wide scan of next_elements). -/
def collectPairs (el : Node) : List (Node × Node) :=
  (iframesIn el).filterMap
    (fun pr => (_find_script_after el pr.1 []).map (fun qr => (pr.2, qr.2)))

/-- The title computed for an iframe: empty when the src attribute is absent
or empty, otherwise the result of the fetch (fetch abstracts
fetch_iframe_title's network interaction). -/
def titleFor (fetch : Str → Str → Str) (base_url : Str) (iframe : Node) : Str :=
  let iframe_src := getAttr iframe SRC_ATTR
  if iframe_src = [] then [] else fetch iframe_src base_url

/-- The substitution loop of _process_allowed_element: for each detected
pair, replace its exact concatenated markup by a sequence token; on
mismatch, fall back to replacing the iframe and script markups separately
and then str.replace the literal iframe-token dot-star-question script-token
string by the sequence token. -/
def substPairs (fetch : Str → Str → Str) (base_url : Str) :
    List (Nat × Node × Node) → Str → List (Str × Str × Str) → Str × List (Str × Str × Str)
  | [], h, tm => (h, tm)
  | (idx, ifr, sc) :: rest, h, tm =>
    let title := titleFor fetch base_url ifr
    let pair_html := serialize ifr ++ serialize sc
    let token := seqToken idx
    let r1 := replaceFirst pair_html token h
    if r1.2 = 1 then substPairs fetch base_url rest r1.1 (tm ++ [(token, pair_html, title)])
    else
      let iframe_token := tokIframeHead ++ Nat.toDigits 10 idx ++ tokTail
      let r2 := replaceFirst (serialize ifr) iframe_token r1.1
      let script_token := tokScriptHead ++ Nat.toDigits 10 idx ++ tokTail
      let r3 := replaceFirst (serialize sc) script_token r2.1
      if r2.2 = 1 ∧ r3.2 = 1 then
        let h4 := replaceAll (iframe_token ++ dotStarQ ++ script_token) token r3.1
        substPairs fetch base_url rest h4 (tm ++ [(token, pair_html, title)])
      else substPairs fetch base_url rest r3.1 tm

/- ===== blocks ===== -/

/-- An output block: either a merged content segment (a Python string) or an
iframe-plus-script widget (a Python tuple of markup and title). -/
inductive Block where
  | content (html : Str)
  | widget (html : Str) (title : Str)
deriving DecidableEq

def widgetsOf (bs : List Block) : List (Str × Str) :=
  bs.filterMap (fun b => match b with | .content _ => none | .widget h t => some (h, t))

def blockHtml : Block → Str
  | .content h => h
  | .widget h _ => h

def concatHtml (bs : List Block) : Str := (bs.map blockHtml).flatten

/-- flush_current_group: a non-empty accumulated group becomes one content
block made of its segments joined. -/
def flushGroup (g : List Str) : List Block :=
  match g with
  | [] => []
  | _ => [.content g.flatten]

/-- The final per-part loop of _process_allowed_element: skip empty parts,
turn a known token into a widget block, and keep a cleaned non-blank content
segment. -/
def partsLoop (parse : Str → Option Node) (token_map : List (Str × Str × Str)) :
    List Str → List Block
  | [] => []
  | part :: ps =>
    if part = [] then partsLoop parse token_map ps
    else
      match matchToken part with
      | some _ =>
        match List.lookup part token_map with
        | some pt => Block.widget pt.1 pt.2 :: partsLoop parse token_map ps
        | none => partsLoop parse token_map ps
      | none =>
        let cleaned_part := clean_orphaned_tags parse part
        if pyStrip cleaned_part = [] then partsLoop parse token_map ps
        else Block.content cleaned_part :: partsLoop parse token_map ps

/-- _process_allowed_element from src/app.py. -/
def _process_allowed_element (parse : Str → Option Node) (fetch : Str → Str → Str)
    (el : Node) (base_url : Str) : List Block :=
  match collectPairs el with
  | [] => [Block.content (serialize el)]
  | p :: ps =>
    let r := substPairs fetch base_url ((p :: ps).enum) (serialize el) []
    partsLoop parse r.2 (splitTokens r.1)

/- ===== extract_blocks_recursive ===== -/

/-- Splicing a list of parts or child blocks into the running state: a
widget flushes the open group and is emitted on its own; a content part is
appended to the open group.  Returns the emitted blocks and the new group. -/
def splicePieces : List Block → List Str → List Block × List Str
  | [], g => ([], g)
  | .content s :: ps, g => splicePieces ps (g ++ [s])
  | .widget h t :: ps, g =>
    let r := splicePieces ps []
    (flushGroup g ++ (Block.widget h t :: r.1), r.2)

/-- The children-processing loop of extract_blocks_recursive, carrying the
current open content group: an iframe child whose next element child is a
script becomes a widget block (after flushing the group); an allowed child
contributes the parts of _process_allowed_element; any other child is
recursed into and its blocks are spliced back. -/
def extractLoop (parse : Str → Option Node) (fetch : Str → Str → Str) (base_url : Str) :
    List Node → List Str → List Block
  | [], g => flushGroup g
  | c :: rest, g =>
    match rest with
    | c2 :: rest2 =>
      if nameOf c = IFRAME_TAG ∧ nameOf c2 = SCRIPT_TAG then
        flushGroup g
          ++ (Block.widget (serialize c ++ serialize c2) (titleFor fetch base_url c)
              :: extractLoop parse fetch base_url rest2 [])
      else
        let parts :=
          if nameOf c ∈ ALLOWED_TAGS then _process_allowed_element parse fetch c base_url
          else extractLoop parse fetch base_url (tagChildren c) []
        let r := splicePieces parts g
        r.1 ++ extractLoop parse fetch base_url (c2 :: rest2) r.2
    | [] =>
      let parts :=
        if nameOf c ∈ ALLOWED_TAGS then _process_allowed_element parse fetch c base_url
        else extractLoop parse fetch base_url (tagChildren c) []
      let r := splicePieces parts g
      r.1 ++ flushGroup r.2
termination_by cs _ => sizeOf cs
decreasing_by
  · simp only [List.cons.sizeOf_spec]
    omega
  · have hlt : sizeOf (tagChildren c) < sizeOf c := by
      have hfil : ∀ (l : List Node), sizeOf (l.filter isTag) ≤ sizeOf l := by
        intro l
        induction l with
        | nil => simp
        | cons x xs ih =>
          simp only [List.filter]
          cases isTag x <;> simp only [List.cons.sizeOf_spec] <;> omega
      have hstr : ∀ (l : Str), 0 < sizeOf l := by
        intro l
        cases l <;> simp
      cases c with
      | text s =>
        simp only [tagChildren, childrenOf, List.filter_nil, List.nil.sizeOf_spec,
          Node.text.sizeOf_spec]
        have := hstr s
        omega
      | elem nm a cs =>
        simp only [tagChildren, childrenOf, Node.elem.sizeOf_spec]
        have h1 := hfil cs
        have h2 := hstr nm
        omega
    simp only [List.cons.sizeOf_spec]
    omega
  · simp only [List.cons.sizeOf_spec]
    omega
  · have hlt : sizeOf (tagChildren c) < sizeOf c := by
      have hfil : ∀ (l : List Node), sizeOf (l.filter isTag) ≤ sizeOf l := by
        intro l
        induction l with
        | nil => simp
        | cons x xs ih =>
          simp only [List.filter]
          cases isTag x <;> simp only [List.cons.sizeOf_spec] <;> omega
      have hstr : ∀ (l : Str), 0 < sizeOf l := by
        intro l
        cases l <;> simp
      cases c with
      | text s =>
        simp only [tagChildren, childrenOf, List.filter_nil, List.nil.sizeOf_spec,
          Node.text.sizeOf_spec]
        have := hstr s
        omega
      | elem nm a cs =>
        simp only [tagChildren, childrenOf, Node.elem.sizeOf_spec]
        have h1 := hfil cs
        have h2 := hstr nm
        omega
    simp only [List.cons.sizeOf_spec]
    omega

/-- extract_blocks_recursive from src/app.py. -/
def extract_blocks_recursive (parse : Str → Option Node) (fetch : Str → Str → Str)
    (element : Node) (base_url : Str) : List Block :=
  extractLoop parse fetch base_url (tagChildren element) []

/-- The per-variant counting done by the index route: content blocks and
iframe blocks. -/
def summaryCounts (blocks : List Block) : Nat × Nat :=
  blocks.foldl
    (fun acc b =>
      match b with
      | .content _ => (acc.1 + 1, acc.2)
      | .widget _ _ => (acc.1, acc.2 + 1))
    (0, 0)

/- ===== fetch_iframe_title ===== -/

/-- normalize_url from src/app.py; urlparse models the URL library, giving
the scheme and netloc components of a URL string. -/
def normalize_url (urlparse : Str → Str × Str) (u0 : Str) : Str :=
  let u := pyStrip u0
  if u = [] then []
  else
    let u1 := if (urlparse u).1 = [] then ("https://".toList) ++ u else u
    if (urlparse u1).2 = [] then [] else u1

/-- soup.find(tag_name): first element with the given tag, in document order. -/
def soupFind (soup : Node) (tag_name : Str) : Option Node :=
  (findAllTags soup).find? (fun t => nameOf t == tag_name)

/-- The priority-order loop of fetch_iframe_title: first matching heading
tag wins; no match at all yields the empty title. -/
def titleScanLoop (soup : Node) : List Str → Str
  | [] => []
  | tn :: rest =>
    match soupFind soup tn with
    | some title_element => getTextStrip title_element
    | none => titleScanLoop soup rest

/-- fetch_iframe_title from src/app.py.  External stages are oracles:
urlparse and urljoin model the URL library, httpGet models requests.get plus
raise_for_status (an error value covers network failure and non-success
responses), parseDoc models the HTML parse of the fetched body.  The
enclosing try/except maps every error to the empty title. -/
def fetch_iframe_title (urlparse : Str → Str × Str) (urljoin : Str → Str → Str)
    (httpGet : Str → Except Unit Str) (parseDoc : Str → Except Unit Node)
    (iframe_url : Str) (base_url : Str) : Str :=
  let u :=
    if base_url ≠ [] ∧ (urlparse iframe_url).2 = [] then urljoin base_url iframe_url
    else iframe_url
  let normalized := normalize_url urlparse u
  if normalized = [] then []
  else
    match httpGet normalized with
    | .error _ => []
    | .ok body =>
      match parseDoc body with
      | .error _ => []
      | .ok soup => titleScanLoop soup IFRAME_TITLE_TAGS

/- ===== the unaggregated piece stream and the canonical aggregator ===== -/

/-- The canonical aggregation of a stream of parts: consecutive content
parts are merged into the open group; a widget part flushes the group and
stands as its own block; the trailing group is flushed at the end. -/
def aggLoop : List Block → List Str → List Block
  | [], g => flushGroup g
  | .content s :: ps, g => aggLoop ps (g ++ [s])
  | .widget h t :: ps, g => flushGroup g ++ (Block.widget h t :: aggLoop ps [])

/-- The stream of parts that extract_blocks_recursive processes for a child
list, before any grouping: a sibling iframe-script pair contributes one
widget part, an allowed child contributes the parts of
_process_allowed_element, and any other child contributes its recursively
extracted blocks. -/
def pieceLoop (parse : Str → Option Node) (fetch : Str → Str → Str) (base_url : Str) :
    List Node → List Block
  | [] => []
  | c :: rest =>
    match rest with
    | c2 :: rest2 =>
      if nameOf c = IFRAME_TAG ∧ nameOf c2 = SCRIPT_TAG then
        Block.widget (serialize c ++ serialize c2) (titleFor fetch base_url c)
          :: pieceLoop parse fetch base_url rest2
      else
        (if nameOf c ∈ ALLOWED_TAGS then _process_allowed_element parse fetch c base_url
         else extract_blocks_recursive parse fetch c base_url)
          ++ pieceLoop parse fetch base_url (c2 :: rest2)
    | [] =>
      if nameOf c ∈ ALLOWED_TAGS then _process_allowed_element parse fetch c base_url
      else extract_blocks_recursive parse fetch c base_url
termination_by cs => sizeOf cs
decreasing_by
  · simp only [List.cons.sizeOf_spec]
    omega
  · simp only [List.cons.sizeOf_spec]
    omega

/-- A script element, as tested by the scanning loop of _find_script_after. -/
def isScriptNode (n : Node) : Prop := isTag n = true ∧ nameOf n = SCRIPT_TAG

/- ===== concrete inputs used by the claim theorems ===== -/

def exP_Hello : Node := .elem ("p".toList) [] [.text ("Hello".toList)]

def exP_World : Node := .elem ("p".toList) [] [.text ("World".toList)]

/-- The root of Scenario A: children exactly the paragraphs Hello and World. -/
def exRootA : Node := .elem ("div".toList) [] [exP_Hello, exP_World]

def exIframeSrcU : Node := .elem ("iframe".toList) [(("src".toList), ("u".toList))] []

def exScriptJs : Node := .elem ("script".toList) [] [.text ("js".toList)]

def exIframeNoSrc : Node := .elem ("iframe".toList) [] []

def exIframeEmptySrc : Node := .elem ("iframe".toList) [(("src".toList), [])] []

/-- An allowed paragraph holding a nested iframe-script pair whose iframe
has an empty src attribute. -/
def exAllowedPair : Node := .elem ("p".toList) [] [exIframeEmptySrc, exScriptJs]

/-- An allowed paragraph in which text stands between the iframe and the
script, so the exact concatenated markup of the pair does not occur in the
serialized paragraph and the fallback substitution branch runs. -/
def exAllowedSplit : Node := .elem ("p".toList) [] [exIframeSrcU, .text ("X".toList), exScriptJs]

/-- A root whose only child is a text node. -/
def exTextRoot : Node := .elem ("div".toList) [] [.text ("hello".toList)]

/- ===== helper lemmas ===== -/

theorem widgetsOf_append (as bs : List Block) :
    widgetsOf (as ++ bs) = widgetsOf as ++ widgetsOf bs := by
  simp [widgetsOf, List.filterMap_append]

theorem widgetsOf_flushGroup (g : List Str) : widgetsOf (flushGroup g) = [] := by
  cases g <;> rfl

theorem widgetsOf_cons_content (s : Str) (bs : List Block) :
    widgetsOf (Block.content s :: bs) = widgetsOf bs := rfl

theorem widgetsOf_cons_widget (h t : Str) (bs : List Block) :
    widgetsOf (Block.widget h t :: bs) = (h, t) :: widgetsOf bs := rfl

theorem widgetsOf_ite_content (c : Prop) [Decidable c] (s : Str) (bs : List Block) :
    widgetsOf (if c then Block.content s :: bs else bs) = widgetsOf bs := by
  split
  · rfl
  · rfl

theorem aggLoop_append (ps qs : List Block) (g : List Str) :
    aggLoop (ps ++ qs) g = (splicePieces ps g).1 ++ aggLoop qs (splicePieces ps g).2 := by
  induction ps generalizing g with
  | nil => simp [splicePieces]
  | cons p ps ih =>
    cases p with
    | content s =>
      simp only [List.cons_append, aggLoop, splicePieces]
      exact ih (g ++ [s])
    | widget h t =>
      simp only [List.cons_append, aggLoop, splicePieces, List.append_eq]
      rw [ih []]
      simp [List.append_assoc]

theorem aggLoop_eq_splice (ps : List Block) (g : List Str) :
    aggLoop ps g = (splicePieces ps g).1 ++ flushGroup (splicePieces ps g).2 := by
  have h := aggLoop_append ps [] g
  simpa [aggLoop] using h

theorem widgetsOf_aggLoop (ps : List Block) (g : List Str) :
    widgetsOf (aggLoop ps g) = widgetsOf ps := by
  induction ps generalizing g with
  | nil =>
    simp only [aggLoop]
    rw [widgetsOf_flushGroup]
    rfl
  | cons p ps ih =>
    cases p with
    | content s =>
      simp only [aggLoop]
      rw [ih]
      rfl
    | widget h t =>
      simp only [aggLoop]
      rw [widgetsOf_append, widgetsOf_flushGroup, widgetsOf_cons_widget,
        widgetsOf_cons_widget, ih]
      rfl

theorem extractLoop_eq_aggLoop (parse : Str → Option Node) (fetch : Str → Str → Str)
    (base_url : Str) (cs : List Node) (g : List Str) :
    extractLoop parse fetch base_url cs g = aggLoop (pieceLoop parse fetch base_url cs) g := by
  induction cs, g using extractLoop.induct parse fetch base_url with
  | case1 g =>
    simp [extractLoop, pieceLoop, aggLoop]
  | case2 c g c2 rest2 hpair ih =>
    simp only [extractLoop, pieceLoop]
    rw [if_pos hpair, if_pos hpair]
    simp only [aggLoop]
    rw [ih]
  | case3 c g c2 rest2 hnot parts r ihtag ihrest =>
    simp only [extractLoop, pieceLoop]
    rw [if_neg hnot, if_neg hnot]
    simp only [extract_blocks_recursive]
    rw [aggLoop_append]
    congr 1
  | case4 c g ih =>
    simp only [extractLoop, pieceLoop, extract_blocks_recursive]
    rw [aggLoop_eq_splice]

theorem collectPairs_eq_nil (el : Node) (h : iframesIn el = []) : collectPairs el = [] := by
  simp [collectPairs, h]

theorem processAllowed_no_pairs (parse : Str → Option Node) (fetch : Str → Str → Str)
    (el : Node) (base_url : Str) (h : collectPairs el = []) :
    _process_allowed_element parse fetch el base_url = [Block.content (serialize el)] := by
  unfold _process_allowed_element
  rw [h]

theorem extractLoop_all_allowed (parse : Str → Option Node) (fetch : Str → Str → Str)
    (base_url : Str) (cs : List Node) :
    ∀ g, (∀ c ∈ cs, nameOf c ∈ ALLOWED_TAGS ∧ iframesIn c = []) →
      extractLoop parse fetch base_url cs g = flushGroup (g ++ cs.map serialize) := by
  induction cs with
  | nil =>
    intro g h
    simp [extractLoop]
  | cons c rest ih =>
    intro g h
    have hc := h c (List.mem_cons_self c rest)
    have hrest : ∀ x ∈ rest, nameOf x ∈ ALLOWED_TAGS ∧ iframesIn x = [] :=
      fun x hx => h x (List.mem_cons_of_mem c hx)
    have hproc : _process_allowed_element parse fetch c base_url = [Block.content (serialize c)] :=
      processAllowed_no_pairs parse fetch c base_url (collectPairs_eq_nil c hc.2)
    have hni : IFRAME_TAG ∉ ALLOWED_TAGS := by decide
    cases rest with
    | nil =>
      simp only [extractLoop]
      rw [if_pos hc.1, hproc]
      simp [splicePieces]
    | cons c2 rest2 =>
      have hguard : ¬ (nameOf c = IFRAME_TAG ∧ nameOf c2 = SCRIPT_TAG) := by
        intro hg
        exact hni (hg.1 ▸ hc.1)
      simp only [extractLoop]
      rw [if_neg hguard, if_pos hc.1, hproc]
      simp only [splicePieces]
      rw [ih _ hrest]
      simp

theorem concatHtml_flushGroup (g : List Str) : concatHtml (flushGroup g) = g.flatten := by
  cases g with
  | nil => rfl
  | cons a g' => simp [flushGroup, concatHtml, blockHtml]

theorem scanScript_some_iff (bp : TreePath) (l : List (TreePath × Node)) (q : TreePath) (n : Node) :
    scanScript bp l = some (q, n) ↔
      isScriptNode n ∧ inBoundary bp q = true ∧
        ∃ l1 l2, l = l1 ++ (q, n) :: l2 ∧ ∀ x ∈ l1, ¬ isScriptNode x.2 := by
  induction l with
  | nil =>
    simp only [scanScript]
    constructor
    · intro h
      exact absurd h (by simp)
    · rintro ⟨_, _, l1, l2, hdec, _⟩
      exact absurd hdec (by simp)
  | cons x rest ih =>
    obtain ⟨xq, xn⟩ := x
    by_cases hx : isTag xn = true ∧ nameOf xn = SCRIPT_TAG
    · simp only [scanScript, if_pos hx]
      by_cases hb : inBoundary bp xq = true
      · rw [if_pos hb]
        constructor
        · intro h
          simp only [Option.some.injEq, Prod.mk.injEq] at h
          obtain ⟨rfl, rfl⟩ := h
          exact ⟨hx, hb, [], rest, rfl, by simp⟩
        · rintro ⟨hn, hbq, l1, l2, hdec, hnos⟩
          cases l1 with
          | nil =>
            simp only [List.nil_append, List.cons.injEq] at hdec
            obtain ⟨heq, _⟩ := hdec
            rw [heq]
          | cons y l1' =>
            simp only [List.cons_append, List.cons.injEq] at hdec
            have hy : ¬ isScriptNode y.2 := hnos y (by simp)
            rw [← hdec.1] at hy
            exact absurd hx hy
      · rw [if_neg hb]
        constructor
        · intro h
          exact absurd h (by simp)
        · rintro ⟨hn, hbq, l1, l2, hdec, hnos⟩
          cases l1 with
          | nil =>
            simp only [List.nil_append, List.cons.injEq] at hdec
            obtain ⟨heq, _⟩ := hdec
            obtain ⟨rfl, rfl⟩ := Prod.mk.injEq .. ▸ heq
            exact absurd hbq hb
          | cons y l1' =>
            simp only [List.cons_append, List.cons.injEq] at hdec
            have hy : ¬ isScriptNode y.2 := hnos y (by simp)
            rw [← hdec.1] at hy
            exact absurd hx hy
    · simp only [scanScript, if_neg hx]
      rw [ih]
      constructor
      · rintro ⟨hn, hbq, l1, l2, hdec, hnos⟩
        refine ⟨hn, hbq, (xq, xn) :: l1, l2, by rw [hdec, List.cons_append], ?_⟩
        intro y hy
        rcases List.mem_cons.mp hy with rfl | hy'
        · exact hx
        · exact hnos y hy'
      · rintro ⟨hn, hbq, l1, l2, hdec, hnos⟩
        cases l1 with
        | nil =>
          simp only [List.nil_append, List.cons.injEq] at hdec
          obtain ⟨heq, _⟩ := hdec
          have : isScriptNode xn := by
            rw [show xn = n from congrArg Prod.snd heq]
            exact hn
          exact absurd this hx
        | cons y l1' =>
          simp only [List.cons_append, List.cons.injEq] at hdec
          refine ⟨hn, hbq, l1', l2, hdec.2, fun z hz => hnos z (by simp [hz])⟩

theorem scanScript_none_iff (bp : TreePath) (l : List (TreePath × Node)) :
    scanScript bp l = none ↔
      ∀ l1 q n l2, l = l1 ++ (q, n) :: l2 → (∀ x ∈ l1, ¬ isScriptNode x.2) → isScriptNode n →
        inBoundary bp q = false := by
  constructor
  · intro h l1 q n l2 hdec hnos hn
    by_contra hb
    have hb' : inBoundary bp q = true := by
      cases hbv : inBoundary bp q
      · exact absurd hbv hb
      · rfl
    have hs : scanScript bp l = some (q, n) :=
      (scanScript_some_iff bp l q n).mpr ⟨hn, hb', l1, l2, hdec, hnos⟩
    rw [h] at hs
    exact absurd hs (by simp)
  · intro h
    cases hs : scanScript bp l with
    | none => rfl
    | some x =>
      obtain ⟨q, n⟩ := x
      obtain ⟨hn, hb, l1, l2, hdec, hnos⟩ := (scanScript_some_iff bp l q n).mp hs
      have := h l1 q n l2 hdec hnos hn
      rw [this] at hb
      exact absurd hb (by simp)

theorem node_ind (P : Node → Prop)
    (ht : ∀ s, P (.text s))
    (he : ∀ nm a cs, (∀ c ∈ cs, P c) → P (.elem nm a cs)) :
    ∀ nd, P nd := by
  have key : ∀ k (nd : Node), sizeOf nd < k → P nd := by
    intro k
    induction k with
    | zero =>
      intro nd h
      omega
    | succ k ih =>
      intro nd h
      cases nd with
      | text s => exact ht s
      | elem nm a cs =>
        refine he nm a cs (fun c hc => ih c ?_)
        have h1 := List.sizeOf_lt_of_mem hc
        simp only [Node.elem.sizeOf_spec] at h
        omega
  exact fun nd => key (sizeOf nd + 1) nd (by omega)

theorem getTextStripList_eq_nil (cs : List Node) (h : getTextStripList cs = []) :
    ∀ c ∈ cs, getTextStrip c = [] := by
  induction cs with
  | nil => simp
  | cons c rest ih =>
    simp only [getTextStripList, List.append_eq_nil] at h
    intro x hx
    rcases List.mem_cons.mp hx with rfl | hx'
    · exact h.1
    · exact ih h.2 x hx'

theorem mem_preorderList (q : TreePath) (m : Node) (cs : List Node) :
    ∀ (p : TreePath) (i : Nat), (q, m) ∈ preorderList p i cs →
      ∃ c ∈ cs, ∃ p', (q, m) ∈ preorderFrom p' c := by
  induction cs with
  | nil =>
    intro p i hm
    simp [preorderList] at hm
  | cons c rest ih =>
    intro p i hm
    simp only [preorderList, List.mem_append] at hm
    rcases hm with h1 | h2
    · exact ⟨c, by simp, p ++ [i], h1⟩
    · obtain ⟨c', hc', p', h'⟩ := ih p (i + 1) h2
      exact ⟨c', by simp [hc'], p', h'⟩

theorem textStrip_preorder (nd : Node) :
    getTextStrip nd = [] → ∀ p q m, (q, m) ∈ preorderFrom p nd → getTextStrip m = [] := by
  induction nd using node_ind with
  | ht s =>
    intro h p q m hm
    simp only [preorderFrom, List.mem_singleton, Prod.mk.injEq] at hm
    rw [hm.2]
    exact h
  | he nm a cs ihcs =>
    intro h p q m hm
    simp only [preorderFrom, List.mem_cons, Prod.mk.injEq] at hm
    rcases hm with ⟨_, rfl⟩ | hm'
    · exact h
    · have hchild : ∀ c ∈ cs, getTextStrip c = [] :=
        getTextStripList_eq_nil cs (by simpa [getTextStrip] using h)
      obtain ⟨c, hcmem, p', hmem⟩ := mem_preorderList q m cs p 0 hm'
      exact ihcs c hcmem (hchild c hcmem) p' q m hmem

theorem findAllTags_text_nil (soup t : Node) (hmem : t ∈ findAllTags soup)
    (hst : getTextStrip soup = []) : getTextStrip t = [] := by
  simp only [findAllTags, List.mem_map, List.mem_filter] at hmem
  obtain ⟨⟨q, m⟩, ⟨hm, _⟩, rfl⟩ := hmem
  exact textStrip_preorder soup hst [] q m hm

theorem serialize_ne_nil_of_text (soup : Node) (h : getTextStrip soup ≠ []) :
    serialize soup ≠ [] := by
  cases soup with
  | text s =>
    simp only [serialize]
    simp only [getTextStrip] at h
    intro hs
    rw [hs] at h
    exact h rfl
  | elem nm a cs => simp [serialize]

theorem titleScanLoop_all_none (soup : Node) (ts : List Str)
    (h : ∀ t ∈ ts, soupFind soup t = none) : titleScanLoop soup ts = [] := by
  induction ts with
  | nil => rfl
  | cons t rest ih =>
    have h1 := h t (by simp)
    simp only [titleScanLoop, h1]
    exact ih (fun x hx => h x (by simp [hx]))

theorem titleScanLoop_first (soup : Node) (ts1 : List Str) (tn : Str) (ts2 : List Str)
    (el : Node) (h1 : ∀ t ∈ ts1, soupFind soup t = none) (h2 : soupFind soup tn = some el) :
    titleScanLoop soup (ts1 ++ tn :: ts2) = getTextStrip el := by
  induction ts1 with
  | nil =>
    simp only [List.nil_append, titleScanLoop, h2]
  | cons t rest ih =>
    have ht := h1 t (by simp)
    simp only [List.cons_append, titleScanLoop, ht]
    exact ih (fun x hx => h1 x (by simp [hx]))

/- ===== claim theorems ===== -/

/-- Claim C3: for every iframe inside a boundary node, _find_script_after
pairs it with the nearest following node in document order whose tag is
script, and only if that node lies within the boundary; if the nearest
following script node is outside the boundary, or no following script node
exists, the scan yields none and does not continue past the first following
script node. -/
theorem find_script_after_spec (root : Node) (tag bp : TreePath) :
    (∀ q n, _find_script_after root tag bp = some (q, n) ↔
      isScriptNode n ∧ inBoundary bp q = true ∧
        ∃ l1 l2, nextElements root tag = l1 ++ (q, n) :: l2 ∧ ∀ x ∈ l1, ¬ isScriptNode x.2)
  ∧ (_find_script_after root tag bp = none ↔
      ∀ l1 q n l2, nextElements root tag = l1 ++ (q, n) :: l2 →
        (∀ x ∈ l1, ¬ isScriptNode x.2) → isScriptNode n → inBoundary bp q = false) := by
  constructor
  · intro q n
    exact scanScript_some_iff bp (nextElements root tag) q n
  · exact scanScript_none_iff bp (nextElements root tag)

/-- Witness for C3 at a concrete tree: inside the paragraph of
exAllowedPair, the iframe at path zero is paired with the script at path
one, which is the first following script and lies within the boundary. -/
theorem find_script_after_spec_witness :
    isScriptNode exScriptJs ∧ inBoundary [] [1] = true ∧
      ∃ l1 l2, nextElements exAllowedPair [0] = l1 ++ (([1] : TreePath), exScriptJs) :: l2 ∧
        ∀ x ∈ l1, ¬ isScriptNode x.2 :=
  ((find_script_after_spec exAllowedPair [0] []).1 [1] exScriptJs).mp rfl

/-- Claim C4: a widget block never merges with a neighboring content block.
The blocks emitted by extract_blocks_recursive are exactly the canonical
aggregation of the part stream (sibling pairs, parts split out of allowed
blocks, and blocks bubbled up from recursive descent); the aggregation
emits every widget part as its own block, flushing any open content group
first, so the widgets of the output are exactly the widget parts, in order. -/
theorem widget_blocks_never_merge (parse : Str → Option Node) (fetch : Str → Str → Str)
    (base_url : Str) :
    (∀ element, extract_blocks_recursive parse fetch element base_url
        = aggLoop (pieceLoop parse fetch base_url (tagChildren element)) [])
  ∧ (∀ ps g, widgetsOf (aggLoop ps g) = widgetsOf ps)
  ∧ (∀ ps g h t, aggLoop (Block.widget h t :: ps) g
        = flushGroup g ++ (Block.widget h t :: aggLoop ps [])) := by
  refine ⟨?_, ?_, ?_⟩
  · intro element
    simp only [extract_blocks_recursive]
    exact extractLoop_eq_aggLoop parse fetch base_url (tagChildren element) []
  · exact widgetsOf_aggLoop
  · intro ps g h t
    rfl

/-- Claim C5: the sanitizer discards a plain fragment exactly when the
re-parsed text content is empty and no descendant element carries non-empty
text (or the fragment was already blank before parsing); a failed re-parse
passes the fragment through unchanged; and a discarded fragment, such as a
stray unmatched closing tag with no text, is absent from the emitted parts
entirely. -/
theorem clean_orphaned_tags_spec (parse : Str → Option Node) (frag : Str) :
    (pyStrip frag ≠ [] → parse frag = none → clean_orphaned_tags parse frag = frag)
  ∧ (clean_orphaned_tags parse frag = [] ↔
      pyStrip frag = [] ∨ ∃ soup, parse frag = some soup ∧ getTextStrip soup = [] ∧
        ∀ t ∈ findAllTags soup, getTextStrip t = [])
  ∧ (∀ token_map ps, matchToken frag = none → clean_orphaned_tags parse frag = [] →
      partsLoop parse token_map (frag :: ps) = partsLoop parse token_map ps) := by
  refine ⟨?_, ?_, ?_⟩
  · intro hns hpn
    have hfe : frag ≠ [] := fun hh => hns (by rw [hh]; rfl)
    unfold clean_orphaned_tags
    rw [if_neg (by rintro (h | h); exacts [hfe h, hns h])]
    rw [hpn]
  · by_cases h0 : frag = [] ∨ pyStrip frag = []
    · unfold clean_orphaned_tags
      rw [if_pos h0]
      constructor
      · intro _
        left
        rcases h0 with h | h
        · rw [h]
          rfl
        · exact h
      · intro _
        rfl
    · have hns : pyStrip frag ≠ [] := fun hh => h0 (Or.inr hh)
      have hfe : frag ≠ [] := fun hh => h0 (Or.inl hh)
      cases hp : parse frag with
      | none =>
        have hval : clean_orphaned_tags parse frag = frag := by
          unfold clean_orphaned_tags
          rw [if_neg h0, hp]
        rw [hval]
        constructor
        · intro hf
          exact absurd hf hfe
        · rintro (h | ⟨soup, hsoup, _⟩)
          · exact absurd h hns
          · exact absurd hsoup (by simp)
      | some soup =>
        have hval : clean_orphaned_tags parse frag
            = (if getTextStrip soup = [] then
                (if ((findAllTags soup).any fun t => !List.isEmpty (getTextStrip t)) = true
                  then serialize soup else [])
              else serialize soup) := by
          unfold clean_orphaned_tags
          rw [if_neg h0, hp]
        rw [hval]
        by_cases ht : getTextStrip soup = []
        · rw [if_pos ht]
          by_cases ha : (findAllTags soup).any (fun t => !((getTextStrip t).isEmpty)) = true
          · obtain ⟨t, htm, htb⟩ := List.any_eq_true.mp ha
            have hz := findAllTags_text_nil soup t htm ht
            rw [hz] at htb
            exact absurd htb (by simp)
          · rw [if_neg ha]
            constructor
            · intro _
              right
              refine ⟨soup, rfl, ht, fun t htm => ?_⟩
              by_contra hne
              exact ha (List.any_eq_true.mpr ⟨t, htm, by simpa [List.isEmpty_iff] using hne⟩)
            · intro _
              rfl
        · rw [if_neg ht]
          have hser : serialize soup ≠ [] := serialize_ne_nil_of_text soup ht
          constructor
          · intro hf
            exact absurd hf hser
          · rintro (h | ⟨soup', hsoup', ht', _⟩)
            · exact absurd h hns
            · rw [Option.some.injEq] at hsoup'
              rw [← hsoup'] at ht'
              exact absurd ht' ht
  · intro token_map ps hmt hcl
    by_cases hfe : frag = []
    · rw [hfe]
      simp [partsLoop]
    · simp only [partsLoop, if_neg hfe, hmt, hcl]
      rw [if_pos (show pyStrip ([] : Str) = [] by rfl)]

/-- Witness for C5: a fragment that fails to re-parse is passed through
unchanged. -/
theorem clean_orphaned_tags_spec_witness :
    pyStrip (("<p>x").toList) ≠ [] ∧
      clean_orphaned_tags (fun _ => none) (("<p>x").toList) = (("<p>x").toList) :=
  ⟨by decide, (clean_orphaned_tags_spec (fun _ => none) (("<p>x").toList)).1 (by decide) rfl⟩

/-- Claim C6: the title resolver is total and returns the empty (absent)
title whenever any stage fails: the resolved URL does not normalize
(malformed URL), the fetch errors (network failure or non-success
response), the document fails to parse, or no element matches any tag of
the prioritized heading list; when every stage succeeds, it returns the
stripped text of the first match, the heading tags being checked in the
configured priority order with the first match winning. -/
theorem fetch_iframe_title_spec (urlparse : Str → Str × Str) (urljoin : Str → Str → Str)
    (httpGet : Str → Except Unit Str) (parseDoc : Str → Except Unit Node)
    (iframe_url base_url : Str) :
    ∀ u, u = (if base_url ≠ [] ∧ (urlparse iframe_url).2 = []
        then urljoin base_url iframe_url else iframe_url) →
      (normalize_url urlparse u = [] →
        fetch_iframe_title urlparse urljoin httpGet parseDoc iframe_url base_url = [])
    ∧ (∀ e, httpGet (normalize_url urlparse u) = .error e →
        fetch_iframe_title urlparse urljoin httpGet parseDoc iframe_url base_url = [])
    ∧ (∀ body e, normalize_url urlparse u ≠ [] →
        httpGet (normalize_url urlparse u) = .ok body → parseDoc body = .error e →
        fetch_iframe_title urlparse urljoin httpGet parseDoc iframe_url base_url = [])
    ∧ (∀ body soup, normalize_url urlparse u ≠ [] →
        httpGet (normalize_url urlparse u) = .ok body → parseDoc body = .ok soup →
        (∀ t ∈ IFRAME_TITLE_TAGS, soupFind soup t = none) →
        fetch_iframe_title urlparse urljoin httpGet parseDoc iframe_url base_url = [])
    ∧ (∀ body soup ts1 tn ts2 el, normalize_url urlparse u ≠ [] →
        httpGet (normalize_url urlparse u) = .ok body → parseDoc body = .ok soup →
        IFRAME_TITLE_TAGS = ts1 ++ tn :: ts2 → (∀ t ∈ ts1, soupFind soup t = none) →
        soupFind soup tn = some el →
        fetch_iframe_title urlparse urljoin httpGet parseDoc iframe_url base_url
          = getTextStrip el) := by
  intro u hu
  subst hu
  refine ⟨?_, ?_, ?_, ?_, ?_⟩
  · intro h
    unfold fetch_iframe_title
    rw [if_pos h]
  · intro e he
    unfold fetch_iframe_title
    by_cases hn : normalize_url urlparse (if base_url ≠ [] ∧ (urlparse iframe_url).2 = []
        then urljoin base_url iframe_url else iframe_url) = []
    · rw [if_pos hn]
    · rw [if_neg hn, he]
  · intro body e hn hb hp
    unfold fetch_iframe_title
    rw [if_neg hn, hb]
    show (match parseDoc body with
      | Except.error _ => []
      | Except.ok soup => titleScanLoop soup IFRAME_TITLE_TAGS) = []
    rw [hp]
  · intro body soup hn hb hp hall
    unfold fetch_iframe_title
    rw [if_neg hn, hb]
    show (match parseDoc body with
      | Except.error _ => []
      | Except.ok soup => titleScanLoop soup IFRAME_TITLE_TAGS) = []
    rw [hp]
    exact titleScanLoop_all_none soup IFRAME_TITLE_TAGS hall
  · intro body soup ts1 tn ts2 el hn hb hp hts h1 h2
    unfold fetch_iframe_title
    rw [if_neg hn, hb]
    show (match parseDoc body with
      | Except.error _ => []
      | Except.ok soup => titleScanLoop soup IFRAME_TITLE_TAGS) = getTextStrip el
    rw [hp]
    show titleScanLoop soup IFRAME_TITLE_TAGS = getTextStrip el
    rw [hts]
    exact titleScanLoop_first soup ts1 tn ts2 el h1 h2

/-- Witness for C6: with concrete oracles whose document holds an h2
heading, the resolver returns that heading's text (the h1 entry is checked
first and misses). -/
theorem fetch_iframe_title_spec_witness :
    fetch_iframe_title (fun _ => ((("https").toList), (("x").toList))) (fun _ v => v)
        (fun _ => Except.ok [])
        (fun _ => Except.ok (Node.elem (("html").toList) []
          [Node.elem (("h2").toList) [] [Node.text (("T").toList)]]))
        (("u").toList) []
      = (("T").toList) := by
  refine Eq.trans ?_ (rfl :
    getTextStrip (Node.elem (("h2").toList) [] [Node.text (("T").toList)]) = (("T").toList))
  refine (fetch_iframe_title_spec (fun _ => ((("https").toList), (("x").toList))) (fun _ v => v)
      (fun _ => Except.ok [])
      (fun _ => Except.ok (Node.elem (("html").toList) []
        [Node.elem (("h2").toList) [] [Node.text (("T").toList)]]))
      (("u").toList) [] _ rfl).2.2.2.2 []
      (Node.elem (("html").toList) [] [Node.elem (("h2").toList) [] [Node.text (("T").toList)]])
      [(("h1").toList)] (("h2").toList)
      [(("h3").toList), (("h4").toList), (("h5").toList), (("h6").toList)]
      (Node.elem (("h2").toList) [] [Node.text (("T").toList)])
      (by decide) rfl rfl rfl ?_ rfl
  intro t ht
  rw [List.mem_singleton] at ht
  subst ht
  rfl

theorem widgetsOf_partsLoop (parse : Str → Option Node) (tm : List (Str × Str × Str))
    (parts : List Str) :
    widgetsOf (partsLoop parse tm parts)
      = parts.filterMap (fun part =>
          if part = [] then none
          else
            match matchToken part with
            | some _ => (List.lookup part tm).map (fun pt => (pt.1, pt.2))
            | none => none) := by
  induction parts with
  | nil => rfl
  | cons part ps ih =>
    by_cases hpe : part = []
    · simp only [partsLoop, List.filterMap_cons, if_pos hpe]
      exact ih
    · simp only [partsLoop, List.filterMap_cons, if_neg hpe]
      cases hmt : matchToken part with
      | some ta =>
        cases hlk : List.lookup part tm with
        | some pt =>
          show widgetsOf (Block.widget pt.1 pt.2 :: partsLoop parse tm ps)
            = (pt.1, pt.2) :: List.filterMap _ ps
          rw [widgetsOf_cons_widget, ih]
        | none =>
          show widgetsOf (partsLoop parse tm ps) = List.filterMap _ ps
          exact ih
      | none =>
        show widgetsOf (if pyStrip (clean_orphaned_tags parse part) = [] then partsLoop parse tm ps
            else Block.content (clean_orphaned_tags parse part) :: partsLoop parse tm ps)
          = List.filterMap _ ps
        split
        · exact ih
        · rw [widgetsOf_cons_content]
          exact ih

/-- Claim C7 (Scenario A): a root whose children are exactly the two
allowed paragraphs Hello and World yields one content block holding their
concatenated markup, with one content block and zero widget blocks
counted. -/
theorem scenario_a_merges_adjacent (parse : Str → Option Node) (fetch : Str → Str → Str)
    (base_url : Str) :
    extract_blocks_recursive parse fetch exRootA base_url
        = [Block.content (("<p>Hello</p><p>World</p>").toList)]
      ∧ summaryCounts (extract_blocks_recursive parse fetch exRootA base_url) = (1, 0) := by
  have hyp : ∀ c ∈ tagChildren exRootA, nameOf c ∈ ALLOWED_TAGS ∧ iframesIn c = [] := by
    intro c hc
    have hch : tagChildren exRootA = [exP_Hello, exP_World] := rfl
    rw [hch] at hc
    rcases List.mem_cons.mp hc with rfl | hc'
    · exact ⟨by decide, rfl⟩
    · rw [List.mem_singleton] at hc'
      subst hc'
      exact ⟨by decide, rfl⟩
  have h1 : extract_blocks_recursive parse fetch exRootA base_url
      = flushGroup ([] ++ (tagChildren exRootA).map serialize) := by
    simp only [extract_blocks_recursive]
    exact extractLoop_all_allowed parse fetch base_url (tagChildren exRootA) [] hyp
  have h2 : flushGroup ([] ++ (tagChildren exRootA).map serialize)
      = [Block.content (("<p>Hello</p><p>World</p>").toList)] := rfl
  exact ⟨h1.trans h2, by rw [h1, h2]; rfl⟩

/-- Claim C8: sibling-level pair detection looks only at element children;
an iframe whose next element sibling is a script forms a widget block even
when text nodes stand between them in the original child list. -/
theorem sibling_pair_skips_text (parse : Str → Option Node) (fetch : Str → Str → Str)
    (base_url : Str) (t1 t2 : Str) :
    extract_blocks_recursive parse fetch
        (Node.elem (("div").toList) [] [.text t1, exIframeSrcU, .text t2, exScriptJs]) base_url
      = [Block.widget (("<iframe src=\"u\"></iframe><script>js</script>").toList)
          (fetch (("u").toList) base_url)] := by
  have hch : tagChildren (Node.elem (("div").toList) [] [.text t1, exIframeSrcU, .text t2, exScriptJs])
      = [exIframeSrcU, exScriptJs] := rfl
  simp only [extract_blocks_recursive, hch]
  simp only [extractLoop]
  rw [if_pos (⟨rfl, rfl⟩ : nameOf exIframeSrcU = IFRAME_TAG ∧ nameOf exScriptJs = SCRIPT_TAG)]
  rfl

/-- Claim C9: a traversal of a container examines only its element
children: the result is unchanged when the text children are removed
beforehand, and a container whose element-child list is empty (for example
one with only text children) emits no blocks at all. -/
theorem text_children_ignored (parse : Str → Option Node) (fetch : Str → Str → Str)
    (base_url : Str) (nm : Str) (attrs : List (Str × Str)) (cs : List Node) :
    (extract_blocks_recursive parse fetch (Node.elem nm attrs cs) base_url
        = extract_blocks_recursive parse fetch (Node.elem nm attrs (cs.filter isTag)) base_url)
    ∧ (cs.filter isTag = [] →
        extract_blocks_recursive parse fetch (Node.elem nm attrs cs) base_url = []) := by
  have hff : (cs.filter isTag).filter isTag = cs.filter isTag := by
    induction cs with
    | nil => rfl
    | cons c rest ih =>
      cases hc : isTag c with
      | true => simp [List.filter, hc, ih]
      | false => simp [List.filter, hc, ih]
  constructor
  · simp only [extract_blocks_recursive, tagChildren, childrenOf]
    rw [hff]
  · intro h
    simp only [extract_blocks_recursive, tagChildren, childrenOf, h]
    simp only [extractLoop]
    rfl

/-- Witness for C9: a root with a single text child emits nothing. -/
theorem text_children_ignored_witness :
    (([Node.text (("hello").toList)] : List Node).filter isTag = [])
    ∧ extract_blocks_recursive (fun _ => none) (fun _ _ => []) exTextRoot [] = [] :=
  ⟨rfl, (text_children_ignored (fun _ => none) (fun _ _ => []) [] (("div").toList) []
    [Node.text (("hello").toList)]).2 rfl⟩

/-- Claim C10: a detected pair whose iframe has a missing src attribute
(sibling level) or an empty src attribute (nested in an allowed block)
triggers no title fetch: the result does not depend on the fetch function,
and the emitted widget block carries the empty title. -/
theorem missing_src_no_fetch (parse : Str → Option Node) (fetch : Str → Str → Str)
    (base_url : Str) :
    extract_blocks_recursive parse fetch
        (Node.elem (("div").toList) [] [exIframeNoSrc, exScriptJs]) base_url
      = [Block.widget (("<iframe></iframe><script>js</script>").toList) []]
    ∧ widgetsOf (extract_blocks_recursive parse fetch
        (Node.elem (("div").toList) [] [exAllowedPair]) base_url)
      = [((("<iframe src=\"\"></iframe><script>js</script>").toList), ([] : Str))] := by
  constructor
  · have hch : tagChildren (Node.elem (("div").toList) [] [exIframeNoSrc, exScriptJs])
        = [exIframeNoSrc, exScriptJs] := rfl
    simp only [extract_blocks_recursive, hch]
    simp only [extractLoop]
    rw [if_pos (⟨rfl, rfl⟩ : nameOf exIframeNoSrc = IFRAME_TAG ∧ nameOf exScriptJs = SCRIPT_TAG)]
    rfl
  · have h1 : widgetsOf (extract_blocks_recursive parse fetch
        (Node.elem (("div").toList) [] [exAllowedPair]) base_url)
        = widgetsOf (pieceLoop parse fetch base_url [exAllowedPair]) := by
      simp only [extract_blocks_recursive]
      rw [extractLoop_eq_aggLoop, widgetsOf_aggLoop]
      rfl
    rw [h1]
    simp only [pieceLoop]
    rw [if_pos (by decide : nameOf exAllowedPair ∈ ALLOWED_TAGS)]
    have hcp : collectPairs exAllowedPair = [(exIframeEmptySrc, exScriptJs)] := rfl
    simp only [_process_allowed_element, hcp]
    have hsplit : splitTokens ((substPairs fetch base_url
          ([(exIframeEmptySrc, exScriptJs)]).enum (serialize exAllowedPair) []).1)
        = [(("<p>").toList), (("@@IFRAME_SEQ_0@@").toList), (("</p>").toList)] := rfl
    have htm : (substPairs fetch base_url
          ([(exIframeEmptySrc, exScriptJs)]).enum (serialize exAllowedPair) []).2
        = [((("@@IFRAME_SEQ_0@@").toList),
            (("<iframe src=\"\"></iframe><script>js</script>").toList), ([] : Str))] := rfl
    rw [hsplit, htm, widgetsOf_partsLoop]
    rfl

/-- Claim C1 (counterexample): a root whose only child is the text node
hello emits no blocks, so the concatenated block markup (empty) differs,
even after whitespace normalization, from the serialized subtree markup;
the dropped markup is real text, not fully-empty orphaned-tag residue. -/
theorem extract_concat_counterexample :
    squashWs (concatHtml (extract_blocks_recursive (fun _ => none) (fun _ _ => []) exTextRoot []))
      ≠ squashWs (serialize exTextRoot) := by
  have hL : extract_blocks_recursive (fun _ => none) (fun _ _ => []) exTextRoot [] = [] := by
    have hch : tagChildren exTextRoot = [] := rfl
    simp only [extract_blocks_recursive, hch, extractLoop]
    rfl
  rw [hL]
  decide

/-- Claim C1 (amended): for a subtree each of whose element children is an
allowed element with no iframe descendants, concatenating the html of every
emitted block, after whitespace normalization, equals the concatenation of
those element children's serialized markup; the subtree's own tags and its
direct text children are not reproduced. -/
theorem extract_concat_amended (parse : Str → Option Node) (fetch : Str → Str → Str)
    (base_url : Str) (nm : Str) (attrs : List (Str × Str)) (cs : List Node)
    (h : ∀ c ∈ tagChildren (Node.elem nm attrs cs),
      nameOf c ∈ ALLOWED_TAGS ∧ iframesIn c = []) :
    squashWs (concatHtml (extract_blocks_recursive parse fetch (Node.elem nm attrs cs) base_url))
      = squashWs (((tagChildren (Node.elem nm attrs cs)).map serialize).flatten) := by
  have h1 : extract_blocks_recursive parse fetch (Node.elem nm attrs cs) base_url
      = flushGroup ([] ++ (tagChildren (Node.elem nm attrs cs)).map serialize) := by
    simp only [extract_blocks_recursive]
    exact extractLoop_all_allowed parse fetch base_url _ [] h
  rw [h1, concatHtml_flushGroup]
  simp

/-- Witness for C1 (amended) at a concrete subtree with one allowed
paragraph child and one text child. -/
theorem extract_concat_amended_witness :
    (∀ c ∈ tagChildren (Node.elem (("section").toList) [] [exP_Hello, .text (("x").toList)]),
        nameOf c ∈ ALLOWED_TAGS ∧ iframesIn c = [])
    ∧ squashWs (concatHtml (extract_blocks_recursive (fun _ => none) (fun _ _ => [])
          (Node.elem (("section").toList) [] [exP_Hello, .text (("x").toList)]) []))
      = squashWs (((tagChildren (Node.elem (("section").toList) []
          [exP_Hello, .text (("x").toList)])).map serialize).flatten) := by
  have hh : ∀ c ∈ tagChildren (Node.elem (("section").toList) [] [exP_Hello, .text (("x").toList)]),
      nameOf c ∈ ALLOWED_TAGS ∧ iframesIn c = [] := by
    intro c hc
    have hch : tagChildren (Node.elem (("section").toList) [] [exP_Hello, .text (("x").toList)])
        = [exP_Hello] := rfl
    rw [hch, List.mem_singleton] at hc
    subst hc
    exact ⟨by decide, rfl⟩
  exact ⟨hh, extract_concat_amended (fun _ => none) (fun _ _ => []) [] (("section").toList) []
    [exP_Hello, .text (("x").toList)] hh⟩

/-- Claim C2 (code bug): on exAllowedSplit, whose pair markup does not
occur verbatim in the serialized paragraph, both single substitutions
succeed, but the source then calls str.replace with the literal string
iframe-token dot-star-question script-token, which never occurs, so the
pair is not reassembled as the comments intend: the substituted markup
keeps both placeholder tokens as plain text and no widget is emitted for
the pair (its markup is also no longer present as plain content). -/
theorem fallback_substitution_bug (parse : Str → Option Node) (fetch : Str → Str → Str)
    (base_url : Str) :
    (substPairs fetch base_url ((collectPairs exAllowedSplit).enum) (serialize exAllowedSplit) []).1
        = (("<p>@@IFRAME_ONLY_0@@X@@SCRIPT_ONLY_0@@</p>").toList)
      ∧ widgetsOf (_process_allowed_element parse fetch exAllowedSplit base_url) = [] := by
  constructor
  · rfl
  · have hcp : collectPairs exAllowedSplit = [(exIframeSrcU, exScriptJs)] := rfl
    simp only [_process_allowed_element, hcp]
    have hsplit : splitTokens ((substPairs fetch base_url
          ([(exIframeSrcU, exScriptJs)]).enum (serialize exAllowedSplit) []).1)
        = [(("<p>@@IFRAME_ONLY_0@@X@@SCRIPT_ONLY_0@@</p>").toList)] := rfl
    rw [hsplit, widgetsOf_partsLoop]
    rfl
